import Mathlib

/-!
Verification development for the roastify audio pipeline
(backend/audio.py, class AudioPipeline).

The Python code is shallowly embedded as executable Lean definitions:
strings become lists of characters, PCM segments become lists of integer
samples together with their frame metadata, the procedural beat
synthesizer becomes an event schedule, and every fallible external call
(OpenAI TTS, pydub decoding, pedalboard, librosa) is represented by an
Except-valued parameter so that the catch-and-fallback control flow of
the source is mirrored exactly.
-/

namespace Roastify

/-! ### Text model: Python strings as lists of characters -/

abbrev Str := List Char

/-- Model of Python str.strip: drop whitespace from both ends. -/
def pyStrip (s : Str) : Str :=
  ((s.dropWhile Char.isWhitespace).reverse.dropWhile Char.isWhitespace).reverse

/-- Model of Python str.split with no separator argument, step 1:
split on every whitespace character, keeping empty chunks. -/
def splitWS : Str → List Str
  | [] => [[]]
  | c :: cs =>
    let r := splitWS cs
    if c.isWhitespace then [] :: r
    else
      match r with
      | [] => [[c]]
      | h :: t => (c :: h) :: t

/-- Model of Python str.split with no separator argument: whitespace
runs separate the tokens and empty tokens are discarded. -/
def pyWords (s : Str) : List Str := (splitWS s).filter (fun w => !w.isEmpty)

/-- Model of the Python substring test, written needle in hay. -/
def listContains (needle : Str) : Str → Bool
  | [] => needle.isEmpty
  | c :: t => needle.isPrefixOf (c :: t) || listContains needle t

/-- Model of Python str.join: join the chunks with the separator. -/
def joinWith (sep : Str) : List Str → Str
  | [] => []
  | [x] => x
  | x :: y :: t => x ++ sep ++ joinWith sep (y :: t)

def toLowerStr (s : Str) : Str := s.map Char.toLower

def toUpperStr (s : Str) : Str := s.map Char.toUpper

/-! ### Lyric-to-speech formatter (audio.py 89-136) -/

/-- Emphasis keyword set of AudioPipeline enhance rap line (audio.py 122). -/
def emphasisKeywords : List Str :=
  ["roast".toList, "fire".toList, "burn".toList,
   "drop".toList, "beat".toList, "flow".toList]

/-- Rhyme suffix set of AudioPipeline enhance rap line (audio.py 125). -/
def rhymeSuffixes : List Str :=
  ["tion".toList, "ing".toList, "ight".toList,
   "ate".toList, "ack".toList, "ow".toList]

/-- True when some emphasis keyword occurs inside the lower-cased word
(audio.py 122). -/
def hasEmphasisKeyword (w : Str) : Bool :=
  emphasisKeywords.any (fun k => listContains k (toLowerStr w))

/-- True when the word ends in one of the rhyme suffixes (audio.py 125). -/
def hasRhymeSuffix (w : Str) : Bool :=
  rhymeSuffixes.any (fun suf => List.isSuffixOf suf w)

/-- Per-word rule of AudioPipeline enhance rap line (audio.py 120-128):
emphasis keywords upper-case the word, otherwise a rhyme suffix appends
a comma, otherwise the word is unchanged. -/
def enhanceWord (w : Str) : Str :=
  if hasEmphasisKeyword w then toUpperStr w
  else if hasRhymeSuffix w then w ++ [',']
  else w

/-- Model of str.replace for a single-character pattern: each occurrence
of the character expands to the replacement text. -/
def replaceChar (c : Char) (rep : Str) (s : Str) : Str :=
  s.flatMap (fun x => if x = c then rep else [x])

/-- AudioPipeline enhance rap line (audio.py 114-136): split into words,
apply the per-word rule, rejoin with single spaces, then expand the two
rhythm markers. -/
def enhanceRapLine (line : Str) : Str :=
  let enhancedWords := (pyWords line).map enhanceWord
  let joined := joinWith [' '] enhancedWords
  replaceChar '?' "? UH!".toList (replaceChar '!' "! YEAH!".toList joined)

/-- Per-line rule of AudioPipeline format lyrics for tts (audio.py 94-109):
blank lines are dropped, bracketed section markers become pause tokens
(with extra energy for HOOK and CHORUS), other lines are enhanced. -/
def processLine (l : Str) : Option Str :=
  let s := pyStrip l
  if s = [] then none
  else if s.head? = some '[' ∧ s.getLast? = some ']' then
    let sectionName := (s.filter (fun c => c != '[')).filter (fun c => c != ']')
    if toUpperStr sectionName = "HOOK".toList ∨ toUpperStr sectionName = "CHORUS".toList then
      some "... YO! ...".toList
    else
      some "...".toList
  else
    some (enhanceRapLine s)

/-- AudioPipeline format lyrics for tts (audio.py 89-112): process the
lines of the lyric text and join the results with pause separators. -/
def formatLyricsForTTS (lyrics : Str) : Str :=
  joinWith " ... ".toList ((List.splitOn '\n' lyrics).filterMap processLine)

end Roastify

namespace Roastify

/-! ### Rhythm pattern synthesizer (audio.py 161-274)

A synthesized tone (AudioPipeline create tone) is identified by its
frequency, duration and volume.  A rhythm bed is modelled by its length
in milliseconds together with the schedule of tone events overlaid on
it: pydub overlay keeps the length of the base segment and adds the
overlaid audio at the given offset, so an overlay call appends one
event and leaves the length unchanged. -/

structure ToneSpec where
  freq : ℚ
  durMs : ℕ
  vol : ℚ
deriving DecidableEq

structure BeatSeg where
  lenMs : ℕ
  events : List (ToneSpec × ℕ)
deriving DecidableEq

/-- Model of pydub AudioSegment.silent. -/
def silentSeg (durationMs : ℕ) : BeatSeg := ⟨durationMs, []⟩

/-- Model of pydub overlay at a position: the schedule records the event
and the length of the base segment is preserved. -/
def overlayTone (b : BeatSeg) (t : ToneSpec) (pos : ℕ) : BeatSeg :=
  ⟨b.lenMs, b.events ++ [(t, pos)]⟩

/-- Overlay a list of events in order (a sequence of overlay calls). -/
def overlayEvents (b : BeatSeg) (es : List (ToneSpec × ℕ)) : BeatSeg :=
  es.foldl (fun a e => overlayTone a e.1 e.2) b

/-- Model of Python range with start 0 and a positive step: the list of
multiples of the step below the stop value. -/
def pyRange (stop step : ℕ) : List ℕ :=
  (List.range ((stop + step - 1) / step)).map (fun i => i * step)

/-- Fold a per-bar event schedule over the list of bar start offsets,
mirroring the bar loops of the beat builders. -/
def buildBars (f : ℕ → List (ToneSpec × ℕ)) (base : BeatSeg) (bars : List ℕ) : BeatSeg :=
  bars.foldl (fun b barStart => overlayEvents b (f barStart)) base

/-- Trap tones (audio.py 196-199). -/
def kickTrap : ToneSpec := ⟨60, 150, 4/5⟩

def snareTrap : ToneSpec := ⟨200, 100, 3/5⟩

def hiHatTrap : ToneSpec := ⟨8000, 25, 3/10⟩

def bassDropTrap : ToneSpec := ⟨40, 400, 7/10⟩

/-- Events of one trap bar (audio.py 202-219): kick on all four beats,
snare on beats 2 and 4, hi-hat on the sixteenth subdivisions that are
not kick positions, and a bass drop when the bar index is divisible
by 8. -/
def trapBarEvents (barStart beatInterval barLength : ℕ) : List (ToneSpec × ℕ) :=
  ((List.range 4).map (fun b => (kickTrap, barStart + b * beatInterval)))
    ++ [(snareTrap, barStart + beatInterval), (snareTrap, barStart + 3 * beatInterval)]
    ++ (((List.range 16).filter (fun s => s % 4 != 0)).map
         (fun s => (hiHatTrap, barStart + s * (beatInterval / 4))))
    ++ (if (barStart / barLength) % 8 = 0 then [(bassDropTrap, barStart)] else [])

/-- AudioPipeline create edm trap beat (audio.py 193-221). -/
def createEdmTrapBeat (base : BeatSeg) (beatInterval barLength durationMs : ℕ) : BeatSeg :=
  buildBars (fun barStart => trapBarEvents barStart beatInterval barLength)
    base (pyRange durationMs barLength)

/-- House tones (audio.py 225-228). -/
def kickHouse : ToneSpec := ⟨80, 120, 9/10⟩

def clapHouse : ToneSpec := ⟨1500, 80, 1/2⟩

def hiHatClosedHouse : ToneSpec := ⟨12000, 20, 1/5⟩

def hiHatOpenHouse : ToneSpec := ⟨8000, 60, 3/10⟩

/-- Events of one house bar (audio.py 230-244): four-on-the-floor kick,
clap on beats 2 and 4, hats on the odd eighth subdivisions with an open
hat on the last one. -/
def houseBarEvents (barStart beatInterval : ℕ) : List (ToneSpec × ℕ) :=
  ((List.range 4).map (fun b => (kickHouse, barStart + b * beatInterval)))
    ++ [(clapHouse, barStart + beatInterval), (clapHouse, barStart + 3 * beatInterval)]
    ++ (((List.range 8).filter (fun e => e % 2 == 1)).map
         (fun e => ((if e = 7 then hiHatOpenHouse else hiHatClosedHouse),
                    barStart + e * (beatInterval / 2))))

/-- AudioPipeline create edm house beat (audio.py 223-246). -/
def createEdmHouseBeat (base : BeatSeg) (beatInterval barLength durationMs : ℕ) : BeatSeg :=
  buildBars (fun barStart => houseBarEvents barStart beatInterval)
    base (pyRange durationMs barLength)

/-- Progressive tones (audio.py 250-253). -/
def kickProg : ToneSpec := ⟨70, 180, 4/5⟩

def snareProg : ToneSpec := ⟨250, 90, 2/5⟩

def percProg : ToneSpec := ⟨4000, 30, 1/4⟩

def bassProg : ToneSpec := ⟨55, 300, 3/5⟩

/-- Events of one progressive bar (audio.py 255-272).  The fractional
beat offsets 2.5, 3.5, 1.5, 2.75 and 3.25 are dyadic, so the float
products with the beat interval are exact and the Python int truncation
agrees with natural division by 2 or 4. -/
def progBarEvents (barStart beatInterval barLength : ℕ) : List (ToneSpec × ℕ) :=
  [(kickProg, barStart), (kickProg, barStart + 5 * beatInterval / 2),
   (kickProg, barStart + 7 * beatInterval / 2)]
    ++ [(snareProg, barStart + beatInterval)]
    ++ [(percProg, barStart + 3 * beatInterval / 2),
        (percProg, barStart + 11 * beatInterval / 4),
        (percProg, barStart + 13 * beatInterval / 4)]
    ++ (if (barStart / barLength) % 2 = 0 then [(bassProg, barStart)] else [])

/-- AudioPipeline create progressive beat (audio.py 248-274). -/
def createProgressiveBeat (base : BeatSeg) (beatInterval barLength durationMs : ℕ) : BeatSeg :=
  buildBars (fun barStart => progBarEvents barStart beatInterval barLength)
    base (pyRange durationMs barLength)

/-- AudioPipeline create placeholder beat (audio.py 176-191) with the
requested duration as an explicit argument: beat interval 60000/120 and
bar length of four beats, then the style dispatch of the source. -/
def createPlaceholderBeatAt (beatType : String) (durationMs : ℕ) : BeatSeg :=
  let beatInterval := 60000 / 120
  let barLength := beatInterval * 4
  let base := silentSeg durationMs
  if beatType = "trap" then createEdmTrapBeat base beatInterval barLength durationMs
  else if beatType = "boom_bap" then createEdmHouseBeat base beatInterval barLength durationMs
  else createProgressiveBeat base beatInterval barLength durationMs

/-- AudioPipeline create placeholder beat with the hardcoded duration of
three minutes (audio.py 178). -/
def createPlaceholderBeat (beatType : String) : BeatSeg :=
  createPlaceholderBeatAt beatType 180000

/-- The closed-form per-bar schedule of each style, used to state that
the synthesized pattern is fully determined by style and duration. -/
def styleBarEvents (beatType : String) (barStart : ℕ) : List (ToneSpec × ℕ) :=
  if beatType = "trap" then trapBarEvents barStart 500 2000
  else if beatType = "boom_bap" then houseBarEvents barStart 500
  else progBarEvents barStart 500 2000

end Roastify

namespace Roastify

/-! ### Numeric model of sample processing

Waveform samples manipulated as numpy float arrays are modelled as
rationals; the 16-bit PCM samples of a pydub segment are integers.
Converting a float array to int16 with numpy astype truncates each value
toward zero and then reduces it modulo 2 to the 16, which is where
overflow wraparound can occur. -/

/-- Truncation toward zero of a rational, the behavior of float to
integer conversion. -/
def ratTrunc (q : ℚ) : ℤ := if 0 ≤ q then ⌊q⌋ else ⌈q⌉

/-- Reduction of an integer into the int16 range by wraparound, the
behavior of a numpy cast for out-of-range values. -/
def wrap16 (z : ℤ) : ℤ := (z + 32768) % 65536 - 32768

/-- Model of numpy astype int16 on a float value: truncate toward zero,
then wrap into the representable range. -/
def npToInt16 (q : ℚ) : ℤ := wrap16 (ratTrunc q)

/-- Model of numpy clip. -/
def clampQ (lo hi q : ℚ) : ℚ := max lo (min q hi)

/-- A value lies in the representable int16 range. -/
def inInt16 (z : ℤ) : Prop := -32768 ≤ z ∧ z ≤ 32767

/-- Float to int16 conversion after effects processing (audio.py
337-340): clip to the soft limiter range, scale by 2 to the 15, cast. -/
def effectsToInt16 (q : ℚ) : ℤ := npToInt16 (clampQ (-(19/20)) (19/20) q * 32768)

/-- Float to int16 conversion after time-stretching (audio.py 396):
scale by 2 to the 15 and cast, with no clipping step. -/
def stretchToInt16 (q : ℚ) : ℤ := npToInt16 (q * 32768)

/-- Float to int16 conversion after ducking (audio.py 478): scale by 2
to the 15, clip to the int16 range, cast. -/
def duckToInt16 (q : ℚ) : ℤ := npToInt16 (clampQ (-32768) 32767 (q * 32768))

/-! ### Audio segments with PCM samples and frame metadata -/

structure Aud where
  samples : List ℤ
  frameRate : ℕ
  sampleWidth : ℕ
  channels : ℕ
deriving DecidableEq

/-- The float sample array handed to pedalboard and librosa: the int16
samples scaled down by 2 to the 15 (audio.py 305 and 379). -/
def floatSamples (a : Aud) : List ℚ := a.samples.map (fun z => (z : ℚ) / 32768)

/-! ### Vocal effects chain (audio.py 294-372)

The pedalboard chain (compressor and reverb) is an external engine that
may fail; it is a parameter returning Except.  The pydub operations of
the fallback chain are pure total transformations of a segment and are
parameters of function type. -/

/-- AudioPipeline apply basic effects (audio.py 359-372): dynamic range
compression, low-pass at 8 kHz, high-pass at 100 Hz, a 3 dB gain and a
final normalization, composed in source order. -/
def applyBasicEffects (compressDyn lowPass8k highPass100 gain3 normalizeSeg : Aud → Aud)
    (audio : Aud) : Aud :=
  normalizeSeg (gain3 (highPass100 (lowPass8k (compressDyn audio))))

/-- AudioPipeline apply audio effects (audio.py 294-357): run the
pedalboard chain on the float samples, clip to the soft limiter range,
convert back to int16 at the original frame metadata; any failure falls
back to the basic pydub chain. -/
def applyAudioEffects (board : List ℚ → Except Unit (List ℚ))
    (compressDyn lowPass8k highPass100 gain3 normalizeSeg : Aud → Aud)
    (audio : Aud) : Aud :=
  match board (floatSamples audio) with
  | .ok processed =>
    ⟨processed.map effectsToInt16, audio.frameRate, audio.sampleWidth, audio.channels⟩
  | .error _ =>
    applyBasicEffects compressDyn lowPass8k highPass100 gain3 normalizeSeg audio

/-! ### Tempo synchronizer (audio.py 374-411) -/

/-- AudioPipeline sync to bpm (audio.py 374-411).  Tempo estimation and
time-stretching are external librosa calls and may fail; a zero target
BPM makes the ratio division raise, which the same handler catches.
When the stretch ratio is within 0.1 of 1 the input is returned
unchanged; otherwise the stretched float samples are converted back to
int16 and the segment is rebuilt at the original frame metadata. -/
def syncToBpm (estimateTempo : List ℚ → Except Unit ℚ)
    (timeStretch : List ℚ → ℚ → Except Unit (List ℚ))
    (vocals : Aud) (targetBpm : ℕ) : Aud :=
  match estimateTempo (floatSamples vocals) with
  | .error _ => vocals
  | .ok tempo =>
    if targetBpm = 0 then vocals
    else
      let stretchRatio := tempo / (targetBpm : ℚ)
      if (1/10 : ℚ) < |stretchRatio - 1| then
        match timeStretch (floatSamples vocals) stretchRatio with
        | .error _ => vocals
        | .ok stretched =>
          ⟨stretched.map stretchToInt16, vocals.frameRate, vocals.sampleWidth, vocals.channels⟩
      else vocals

/-! ### Mixer (audio.py 413-446)

For the mixing stage a segment is modelled by its sample buffer at a
fixed rate; pydub lengths are proportional to buffer lengths.  Gain and
normalization are per-sample and whole-buffer transformations supplied
as length-preserving parameters; overlay adds the second buffer into
the first and keeps the length of the first. -/

structure MixSeg where
  samples : List ℤ
deriving DecidableEq

/-- Model of pydub repetition of a segment (audio.py 427). -/
def repeatList (xs : List ℤ) : ℕ → List ℤ
  | 0 => []
  | n + 1 => xs ++ repeatList xs n

/-- Model of pydub overlay for the mixer: add the overlaid buffer into
the base buffer; the tail of the base beyond the overlaid buffer is
unchanged, and the result has the length of the base. -/
def addInto : List ℤ → List ℤ → List ℤ
  | xs, [] => xs
  | [], _ => []
  | x :: xs, y :: ys => (x + y) :: addInto xs ys

/-- The beat looping step of AudioPipeline mix audio (audio.py 423-427):
when the beat is shorter than the vocals it is repeated
(vocals length divided by beat length, plus one) times.  A beat of
length zero makes the Python floor division raise ZeroDivisionError,
modelled as the error case. -/
def loopBeat (vocalsLen : ℕ) (beat : List ℤ) : Except String (List ℤ) :=
  if beat.length < vocalsLen then
    if beat.length = 0 then .error "ZeroDivisionError"
    else .ok (repeatList beat (vocalsLen / beat.length + 1))
  else .ok beat

/-- AudioPipeline mix audio (audio.py 413-446) up to the export step:
loop the beat to cover the vocals, trim it to the vocals length, apply
the fixed gains, overlay and normalize. -/
def mixAudio (gainV gainB : ℤ → ℤ) (normalizeBuf : List ℤ → List ℤ)
    (vocals beat : MixSeg) : Except String MixSeg :=
  let vocalsDuration := vocals.samples.length
  match loopBeat vocalsDuration beat.samples with
  | .error e => .error e
  | .ok looped =>
    let trimmed := looped.take vocalsDuration
    let v := vocals.samples.map gainV
    let b := trimmed.map gainB
    .ok ⟨normalizeBuf (addInto v b)⟩

end Roastify

namespace Roastify

/-! ### Orchestrator and fallback ladder (audio.py 38-87 and 525-551) -/

abbrev Bytes := List ℕ

/-- AudioConfig (models.py 48-57). -/
structure AudioConfig where
  voiceModel : String
  speed : ℚ
  pitchShift : ℚ
  autotuneStrength : ℚ
  reverbLevel : ℚ
  compressionRatio : ℚ
  beatType : String
  targetBpm : ℕ

/-- LyricsData restricted to the field the audio pipeline reads
(models.py 34-45, audio.py 72 and 534). -/
structure LyricsData where
  fullLyrics : Str

/-- External collaborators and fallible pipeline stages of one
generate audio call.  The speech adapter receives the formatted text
and the requested speed and may fail on any call; the remaining stages
of the full pipeline may fail for their own reasons. -/
structure Env where
  hasClient : Bool
  tts : Str → ℚ → Except Unit Bytes
  loadBeat : Except Unit BeatSeg
  processVocals : Bytes → Except Unit Aud
  mixFinal : Aud → BeatSeg → Except Unit Bytes

/-- Model of the mp3 export of a silent segment of the given duration
(audio.py 548-551): the encoder writes a frame-sync header followed by
the encoded frames, so the payload is never empty. -/
def exportSilentMp3 (durationMs : ℕ) : Bytes := 255 :: 251 :: List.replicate durationMs 0

/-- AudioPipeline generate vocals (audio.py 66-87): raise when no
client is configured, otherwise call the speech adapter on the
formatted lyrics at the rap speed, the configured speed floored
at 1.2. -/
def generateVocals (env : Env) (lyrics : LyricsData) (config : AudioConfig) :
    Except Unit Bytes :=
  if env.hasClient then
    env.tts (formatLyricsForTTS lyrics.fullLyrics) (max config.speed (6/5))
  else .error ()

/-- The try block of AudioPipeline generate audio (audio.py 46-59):
vocals, beat, vocal processing and final mix in sequence, failing as
soon as one stage fails. -/
def runFullPipeline (env : Env) (lyrics : LyricsData) (config : AudioConfig) :
    Except Unit Bytes :=
  match generateVocals env lyrics config with
  | .error e => .error e
  | .ok vocalsBytes =>
    match env.loadBeat with
    | .error e => .error e
    | .ok beat =>
      match env.processVocals vocalsBytes with
      | .error e => .error e
      | .ok processed => env.mixFinal processed beat

/-- AudioPipeline generate fallback audio (audio.py 525-551): call the
speech adapter directly at the configured speed; when the client is
missing or the call fails, export thirty seconds of silence.  The
boolean records whether the silence fallback was reached. -/
def generateFallbackAudio (env : Env) (lyrics : LyricsData) (config : AudioConfig) :
    Bytes × Bool :=
  if env.hasClient then
    match env.tts (formatLyricsForTTS lyrics.fullLyrics) config.speed with
    | .ok b => (b, false)
    | .error _ => (exportSilentMp3 30000, true)
  else (exportSilentMp3 30000, true)

/-- The three states of the degradation ladder. -/
inductive Stage where
  | fullPipeline
  | speechOnly
  | silenceFallback
deriving DecidableEq

/-- AudioPipeline generate audio (audio.py 38-64): run the full
pipeline; on any failure run the speech-only fallback, which itself
degrades to encoded silence.  The returned list records the states
entered, in order. -/
def generateAudio (env : Env) (lyrics : LyricsData) (config : AudioConfig) :
    Bytes × List Stage :=
  match runFullPipeline env lyrics config with
  | .ok b => (b, [Stage.fullPipeline])
  | .error _ =>
    match generateFallbackAudio env lyrics config with
    | (b, false) => (b, [Stage.fullPipeline, Stage.speechOnly])
    | (b, true) => (b, [Stage.fullPipeline, Stage.speechOnly, Stage.silenceFallback])

end Roastify

namespace Roastify

/-! ### Schedule lemmas for the rhythm synthesizer -/

theorem overlayEvents_eq (es : List (ToneSpec × ℕ)) :
    ∀ b : BeatSeg, overlayEvents b es = ⟨b.lenMs, b.events ++ es⟩ := by
  induction es with
  | nil => intro b; simp [overlayEvents]
  | cons e t ih =>
    intro b
    show overlayEvents (overlayTone b e.1 e.2) t = _
    rw [ih]
    simp [overlayTone]

theorem buildBars_eq (f : ℕ → List (ToneSpec × ℕ)) (bars : List ℕ) :
    ∀ base : BeatSeg, buildBars f base bars = ⟨base.lenMs, base.events ++ bars.flatMap f⟩ := by
  induction bars with
  | nil => intro base; simp [buildBars]
  | cons bs t ih =>
    intro base
    show buildBars f (overlayEvents base (f bs)) t = _
    rw [ih, overlayEvents_eq]
    simp

theorem placeholder_closed_form (beatType : String) (durationMs : ℕ) :
    createPlaceholderBeatAt beatType durationMs =
      ⟨durationMs, (pyRange durationMs 2000).flatMap (styleBarEvents beatType)⟩ := by
  unfold createPlaceholderBeatAt styleBarEvents
  by_cases h1 : beatType = "trap"
  · simp only [h1, if_pos rfl]
    rw [show (60000 / 120 : ℕ) = 500 from rfl]
    rw [createEdmTrapBeat, buildBars_eq]
    simp [silentSeg]
  · by_cases h2 : beatType = "boom_bap"
    · simp only [h1, h2, if_neg, if_pos rfl, reduceIte]
      rw [show (60000 / 120 : ℕ) = 500 from rfl]
      rw [createEdmHouseBeat, buildBars_eq]
      simp [silentSeg]
    · simp only [h1, h2, reduceIte]
      rw [show (60000 / 120 : ℕ) = 500 from rfl]
      rw [createProgressiveBeat, buildBars_eq]
      simp [silentSeg]

/-- C3: for every beat style and every requested duration, the
synthesized rhythm bed has length exactly equal to the requested
duration, and the bed is fully deterministic given style and duration:
it equals the closed-form schedule obtained by stamping the per-bar
events of the style on every bar of the requested duration, so
overlaying events neither extends nor shortens the bed. -/
theorem c3_bed_length_deterministic (beatType : String) (durationMs : ℕ) :
    (createPlaceholderBeatAt beatType durationMs).lenMs = durationMs ∧
      createPlaceholderBeatAt beatType durationMs =
        ⟨durationMs, (pyRange durationMs 2000).flatMap (styleBarEvents beatType)⟩ := by
  refine ⟨?_, placeholder_closed_form beatType durationMs⟩
  rw [placeholder_closed_form]

end Roastify

namespace Roastify

theorem trap_events_eq :
    (createPlaceholderBeat "trap").events =
      ((List.range 90).map (fun i => i * 2000)).flatMap (fun bs => trapBarEvents bs 500 2000) := by
  rw [createPlaceholderBeat, placeholder_closed_form]
  have h1 : pyRange 180000 2000 = (List.range 90).map (fun i => i * 2000) := rfl
  have h2 : styleBarEvents "trap" = fun bs => trapBarEvents bs 500 2000 := by
    funext bs; simp [styleBarEvents]
  rw [h1, h2]

theorem bassDrop_ne_kick : bassDropTrap ≠ kickTrap := by decide

theorem bassDrop_ne_snare : bassDropTrap ≠ snareTrap := by decide

theorem bassDrop_ne_hiHat : bassDropTrap ≠ hiHatTrap := by decide

theorem mem_trap_bar_of (b : ℕ) (hb : b < 90) (e : ToneSpec × ℕ)
    (he : e ∈ trapBarEvents (b * 2000) 500 2000) :
    e ∈ (createPlaceholderBeat "trap").events := by
  rw [trap_events_eq]
  exact List.mem_flatMap.mpr ⟨b * 2000, List.mem_map.mpr ⟨b, List.mem_range.mpr hb, rfl⟩, he⟩

/-- C4: for trap style at the hardcoded 180000 ms duration, the bed has
length exactly 180000 ms; in every one of the 90 bars the kick is
overlaid on all four beats, the snare on beats 2 and 4, the hi-hat on
the sixteenth subdivisions that are not kick positions, and a sub-bass
event is overlaid exactly at the bars whose index is divisible by 8. -/
theorem c4_trap_scenario :
    (createPlaceholderBeat "trap").lenMs = 180000 ∧
    (∀ b : ℕ, b < 90 → ∀ k : ℕ, k < 4 →
       (kickTrap, b * 2000 + k * 500) ∈ (createPlaceholderBeat "trap").events) ∧
    (∀ b : ℕ, b < 90 →
       (snareTrap, b * 2000 + 500) ∈ (createPlaceholderBeat "trap").events ∧
       (snareTrap, b * 2000 + 1500) ∈ (createPlaceholderBeat "trap").events) ∧
    (∀ b : ℕ, b < 90 → ∀ s : ℕ, s < 16 → s % 4 ≠ 0 →
       (hiHatTrap, b * 2000 + s * 125) ∈ (createPlaceholderBeat "trap").events) ∧
    (∀ p : ℕ, (bassDropTrap, p) ∈ (createPlaceholderBeat "trap").events ↔
       ∃ b : ℕ, b < 90 ∧ b % 8 = 0 ∧ p = b * 2000) := by
  have hdiv : ∀ b : ℕ, b * 2000 / 2000 = b := fun b => Nat.mul_div_cancel b (by norm_num)
  refine ⟨?_, ?_, ?_, ?_, ?_⟩
  · rw [createPlaceholderBeat, placeholder_closed_form]
  · intro b hb k hk
    apply mem_trap_bar_of b hb
    simp only [trapBarEvents, List.mem_append, List.mem_map, List.mem_range, List.mem_filter,
      List.mem_cons, List.mem_singleton]
    left; left; left
    exact ⟨k, hk, rfl⟩
  · intro b hb
    constructor
    · apply mem_trap_bar_of b hb
      simp only [trapBarEvents, List.mem_append, List.mem_cons, List.mem_singleton]
      left; left; right; left
      norm_num
    · apply mem_trap_bar_of b hb
      simp only [trapBarEvents, List.mem_append, List.mem_cons, List.mem_singleton]
      left; left; right; right; left
      norm_num
  · intro b hb s hs16 hs4
    apply mem_trap_bar_of b hb
    simp only [trapBarEvents, List.mem_append, List.mem_map, List.mem_range, List.mem_filter,
      List.mem_cons, List.mem_singleton]
    left; right
    exact ⟨s, ⟨hs16, by simpa [bne_iff_ne] using hs4⟩, rfl⟩
  · intro p
    constructor
    · intro hmem
      rw [trap_events_eq] at hmem
      rcases List.mem_flatMap.mp hmem with ⟨bs, hbs, hin⟩
      rcases List.mem_map.mp hbs with ⟨b, hbrange, rfl⟩
      simp only [trapBarEvents, List.mem_append] at hin
      rcases hin with ((hkick | hsnare) | hhat) | hbass
      · rcases List.mem_map.mp hkick with ⟨k, _, hpair⟩
        exact absurd (congrArg Prod.fst hpair) (Ne.symm bassDrop_ne_kick)
      · rcases List.mem_cons.mp hsnare with hpair | hrest
        · exact absurd (congrArg Prod.fst hpair) bassDrop_ne_snare
        · have hpair := List.mem_singleton.mp hrest
          exact absurd (congrArg Prod.fst hpair) bassDrop_ne_snare
      · rcases List.mem_map.mp hhat with ⟨s, _, hpair⟩
        exact absurd (congrArg Prod.fst hpair) (Ne.symm bassDrop_ne_hiHat)
      · by_cases hc : (b * 2000 / 2000) % 8 = 0
        · rw [if_pos hc] at hbass
          have hpair := List.mem_singleton.mp hbass
          refine ⟨b, by simpa using hbrange, ?_, congrArg Prod.snd hpair⟩
          rwa [hdiv b] at hc
        · rw [if_neg hc] at hbass
          simp at hbass
    · rintro ⟨b, hb, hb8, rfl⟩
      apply mem_trap_bar_of b hb
      simp only [trapBarEvents, List.mem_append, List.mem_cons, List.mem_singleton]
      right
      rw [hdiv b, hb8]
      simp

theorem c4_trap_scenario_witness :
    (kickTrap, 8 * 2000 + 3 * 500) ∈ (createPlaceholderBeat "trap").events ∧
    ((bassDropTrap, 16 * 2000) ∈ (createPlaceholderBeat "trap").events ↔
       ∃ b : ℕ, b < 90 ∧ b % 8 = 0 ∧ 16 * 2000 = b * 2000) :=
  ⟨c4_trap_scenario.2.1 8 (by decide) 3 (by decide), c4_trap_scenario.2.2.2.2 (16 * 2000)⟩

end Roastify

namespace Roastify

/-! ### Mixer lemmas -/

theorem repeatList_length (xs : List ℤ) : ∀ n : ℕ, (repeatList xs n).length = n * xs.length := by
  intro n
  induction n with
  | zero => simp [repeatList]
  | succ m ih => simp [repeatList, ih, Nat.succ_mul, Nat.add_comm]

theorem addInto_length : ∀ (xs ys : List ℤ), (addInto xs ys).length = xs.length := by
  intro xs
  induction xs with
  | nil => intro ys; cases ys <;> simp [addInto]
  | cons x t ih =>
    intro ys
    cases ys with
    | nil => simp [addInto]
    | cons y u => simp [addInto, ih]

theorem le_loop_len {v b : ℕ} (hb : 0 < b) : v ≤ (v / b + 1) * b := by
  calc v = b * (v / b) + v % b := (Nat.div_add_mod v b).symm
    _ ≤ b * (v / b) + b := Nat.add_le_add_left (le_of_lt (Nat.mod_lt v hb)) _
    _ = (v / b + 1) * b := by ring

/-- C2 amended: for every vocal segment and every rhythm bed of
positive length, the mixer loops the bed until it is at least as long
as the vocals, trims it to exactly the vocal length, and the mixed
segment has length equal to the vocal length.  (The unqualified claim
over all bed lengths fails: an empty bed makes the loop count division
raise, see the counterexample.) -/
theorem c2_mix_length (gainV gainB : ℤ → ℤ) (normalizeBuf : List ℤ → List ℤ)
    (hnorm : ∀ l, (normalizeBuf l).length = l.length)
    (vocals beat : MixSeg) (hbeat : 0 < beat.samples.length) :
    ∃ looped, loopBeat vocals.samples.length beat.samples = .ok looped ∧
      vocals.samples.length ≤ looped.length ∧
      (looped.take vocals.samples.length).length = vocals.samples.length ∧
      ∃ m, mixAudio gainV gainB normalizeBuf vocals beat = .ok m ∧
        m.samples.length = vocals.samples.length := by
  have hloop : ∃ looped, loopBeat vocals.samples.length beat.samples = .ok looped ∧
      vocals.samples.length ≤ looped.length := by
    unfold loopBeat
    by_cases hlt : beat.samples.length < vocals.samples.length
    · rw [if_pos hlt, if_neg (Nat.pos_iff_ne_zero.mp hbeat)]
      exact ⟨_, rfl, by rw [repeatList_length]; exact le_loop_len hbeat⟩
    · rw [if_neg hlt]
      exact ⟨_, rfl, le_of_not_lt hlt⟩
  obtain ⟨looped, hfix, hlen⟩ := hloop
  refine ⟨looped, hfix, hlen, by simp [hlen], ?_⟩
  have hmix : mixAudio gainV gainB normalizeBuf vocals beat =
      .ok ⟨normalizeBuf (addInto (vocals.samples.map gainV)
            ((looped.take vocals.samples.length).map gainB))⟩ := by
    simp only [mixAudio]
    rw [hfix]
  exact ⟨_, hmix, by simp [hnorm, addInto_length]⟩

/-- C2 counterexample: with a bed of length zero and a non-empty vocal
segment the mixer does not return a mix of the vocal length; the loop
count division raises ZeroDivisionError, so the original claim, which
quantifies over every bed length, is false. -/
theorem c2_counterexample :
    mixAudio id id id ⟨[0]⟩ ⟨[]⟩ = .error "ZeroDivisionError" := by rfl

theorem c2_mix_length_witness :
    (0 : ℕ) < (MixSeg.mk ([5, 6] : List ℤ)).samples.length ∧
    ∃ m, mixAudio id id id ⟨[1, 2, 3]⟩ ⟨[5, 6]⟩ = .ok m ∧
      m.samples.length = (MixSeg.mk ([1, 2, 3] : List ℤ)).samples.length := by
  refine ⟨by decide, ?_⟩
  obtain ⟨l, h1, h2, h3, m, hm, hl⟩ :=
    c2_mix_length id id id (fun l => rfl) ⟨[1, 2, 3]⟩ ⟨[5, 6]⟩ (by decide)
  exact ⟨m, hm, hl⟩

end Roastify

namespace Roastify

/-- C5: tempo sync computes ratio = estimated bpm / target bpm and
returns the input unchanged when the ratio is within 0.1 of 1, in
particular when the estimate equals the target exactly; when the ratio
deviates by more than 0.1 it returns the stretched samples rebuilt at
the original frame rate, sample width and channel count; and on any
estimation or stretch failure it returns the original segment, never
raising. -/
theorem c5_tempo_sync (estimateTempo : List ℚ → Except Unit ℚ)
    (timeStretch : List ℚ → ℚ → Except Unit (List ℚ))
    (vocals : Aud) (targetBpm : ℕ) :
    (∀ e, estimateTempo (floatSamples vocals) = .error e →
       syncToBpm estimateTempo timeStretch vocals targetBpm = vocals) ∧
    (∀ tempo, estimateTempo (floatSamples vocals) = .ok tempo →
       targetBpm ≠ 0 → |tempo / (targetBpm : ℚ) - 1| ≤ 1/10 →
       syncToBpm estimateTempo timeStretch vocals targetBpm = vocals) ∧
    (estimateTempo (floatSamples vocals) = .ok (targetBpm : ℚ) →
       syncToBpm estimateTempo timeStretch vocals targetBpm = vocals) ∧
    (∀ tempo e, estimateTempo (floatSamples vocals) = .ok tempo →
       timeStretch (floatSamples vocals) (tempo / (targetBpm : ℚ)) = .error e →
       syncToBpm estimateTempo timeStretch vocals targetBpm = vocals) ∧
    (∀ tempo stretched, estimateTempo (floatSamples vocals) = .ok tempo →
       targetBpm ≠ 0 → (1/10 : ℚ) < |tempo / (targetBpm : ℚ) - 1| →
       timeStretch (floatSamples vocals) (tempo / (targetBpm : ℚ)) = .ok stretched →
       syncToBpm estimateTempo timeStretch vocals targetBpm =
         ⟨stretched.map stretchToInt16, vocals.frameRate,
          vocals.sampleWidth, vocals.channels⟩) := by
  refine ⟨?_, ?_, ?_, ?_, ?_⟩
  · intro e he
    simp only [syncToBpm, he]
  · intro tempo he h0 hle
    simp only [syncToBpm, he]
    rw [if_neg h0, if_neg (not_lt.mpr hle)]
  · intro he
    by_cases h0 : targetBpm = 0
    · simp only [syncToBpm, he]
      rw [if_pos h0]
    · have hq : ((targetBpm : ℚ)) ≠ 0 := Nat.cast_ne_zero.mpr h0
      simp only [syncToBpm, he]
      rw [if_neg h0, if_neg (by rw [div_self hq]; norm_num)]
  · intro tempo e he hstr
    by_cases h0 : targetBpm = 0
    · simp only [syncToBpm, he]
      rw [if_pos h0]
    · by_cases hgt : (1/10 : ℚ) < |tempo / (targetBpm : ℚ) - 1|
      · simp only [syncToBpm, he]
        rw [if_neg h0, if_pos hgt, hstr]
      · simp only [syncToBpm, he]
        rw [if_neg h0, if_neg hgt]
  · intro tempo stretched he h0 hgt hstr
    simp only [syncToBpm, he]
    rw [if_neg h0, if_pos hgt, hstr]

theorem c5_tempo_sync_witness :
    syncToBpm (fun _ => .ok 90) (fun _ _ => .ok []) ⟨[100], 22050, 2, 1⟩ 90 =
      ⟨[100], 22050, 2, 1⟩ :=
  (c5_tempo_sync (fun _ => .ok 90) (fun _ _ => .ok []) ⟨[100], 22050, 2, 1⟩ 90).2.2.1
    (by norm_num)

/-- C7: the vocal effects chain is a total function on segments; when
the pedalboard chain fails on the float samples the result is exactly
the simpler fallback chain of compression, low-pass, high-pass, gain
and normalization applied to the input, and when it succeeds the result
is the clipped converted samples at the original frame metadata.  The
fallback path is a composition of total operations, so it cannot
itself fail. -/
theorem c7_effects_fallback (board : List ℚ → Except Unit (List ℚ))
    (compressDyn lowPass8k highPass100 gain3 normalizeSeg : Aud → Aud) (audio : Aud) :
    (∀ e, board (floatSamples audio) = .error e →
       applyAudioEffects board compressDyn lowPass8k highPass100 gain3 normalizeSeg audio =
         normalizeSeg (gain3 (highPass100 (lowPass8k (compressDyn audio))))) ∧
    (∀ processed, board (floatSamples audio) = .ok processed →
       applyAudioEffects board compressDyn lowPass8k highPass100 gain3 normalizeSeg audio =
         ⟨processed.map effectsToInt16, audio.frameRate,
          audio.sampleWidth, audio.channels⟩) := by
  constructor
  · intro e he
    simp [applyAudioEffects, applyBasicEffects, he]
  · intro processed hp
    simp [applyAudioEffects, hp]

theorem c7_effects_fallback_witness :
    applyAudioEffects (fun _ => .error ()) id id id id id ⟨[7], 22050, 2, 1⟩ =
      ⟨[7], 22050, 2, 1⟩ :=
  (c7_effects_fallback (fun _ => .error ()) id id id id id ⟨[7], 22050, 2, 1⟩).1 () rfl

/-- C10: with a client configured, the full-pipeline path always calls
the speech adapter at the configured speed floored at 1.2, while the
speech-only fallback path calls it at the configured speed exactly; so
whenever the configured speed is below 1.2 the two paths request
different speeds for the same formatted text. -/
theorem c10_tts_speeds (env : Env) (lyrics : LyricsData) (config : AudioConfig)
    (hclient : env.hasClient = true) :
    generateVocals env lyrics config =
      env.tts (formatLyricsForTTS lyrics.fullLyrics) (max config.speed (6/5)) ∧
    (6/5 : ℚ) ≤ max config.speed (6/5) ∧
    generateFallbackAudio env lyrics config =
      (match env.tts (formatLyricsForTTS lyrics.fullLyrics) config.speed with
       | .ok b => (b, false)
       | .error _ => (exportSilentMp3 30000, true)) ∧
    (config.speed < 6/5 → max config.speed (6/5) ≠ config.speed) := by
  refine ⟨?_, le_max_right _ _, ?_, ?_⟩
  · simp [generateVocals, hclient]
  · simp [generateFallbackAudio, hclient]
  · intro hlt
    rw [max_eq_right (le_of_lt hlt)]
    exact ne_of_gt hlt

theorem c10_tts_speeds_witness :
    max (11/10 : ℚ) (6/5) ≠ (11/10 : ℚ) :=
  (c10_tts_speeds
      ⟨true, fun _ _ => .ok [1], .ok (silentSeg 0), fun _ => .ok ⟨[], 0, 0, 0⟩,
       fun _ _ => .ok [1]⟩
      ⟨[]⟩ ⟨"echo", 11/10, 0, 7/10, 3/10, 4, "trap", 90⟩ rfl).2.2.2 (by norm_num)

/-- C1: the orchestrator is total and its degradation is strictly
one-directional: the visited-state trace is always a prefix extension
of full pipeline, then speech-only, then silence, with no state entered
twice; and when the speech adapter fails on every call the result is
the encoded thirty-second silence, a non-empty byte payload, reached
through all three states. -/
theorem c1_fallback_ladder (env : Env) (lyrics : LyricsData) (config : AudioConfig) :
    ((generateAudio env lyrics config).2 = [Stage.fullPipeline] ∨
     (generateAudio env lyrics config).2 = [Stage.fullPipeline, Stage.speechOnly] ∨
     (generateAudio env lyrics config).2 =
       [Stage.fullPipeline, Stage.speechOnly, Stage.silenceFallback]) ∧
    ((∀ t s, env.tts t s = .error ()) →
       (generateAudio env lyrics config).1 = exportSilentMp3 30000 ∧
       (generateAudio env lyrics config).1 ≠ [] ∧
       (generateAudio env lyrics config).2 =
         [Stage.fullPipeline, Stage.speechOnly, Stage.silenceFallback]) := by
  constructor
  · rcases hrun : runFullPipeline env lyrics config with e | b
    · rcases hfb : generateFallbackAudio env lyrics config with ⟨b2, fl⟩
      cases fl
      · right; left
        simp [generateAudio, hrun, hfb]
      · right; right
        simp [generateAudio, hrun, hfb]
    · left
      simp [generateAudio, hrun]
  · intro hfail
    have hvoc : generateVocals env lyrics config = .error () := by
      by_cases hc : env.hasClient
      · simp [generateVocals, hc, hfail]
      · simp [generateVocals, hc]
    have hrun : runFullPipeline env lyrics config = .error () := by
      simp [runFullPipeline, hvoc]
    have hfb : generateFallbackAudio env lyrics config = (exportSilentMp3 30000, true) := by
      by_cases hc : env.hasClient
      · simp [generateFallbackAudio, hc, hfail]
      · simp [generateFallbackAudio, hc]
    have hne : exportSilentMp3 30000 ≠ [] := by
      unfold exportSilentMp3
      exact List.cons_ne_nil _ _
    refine ⟨?_, ?_, ?_⟩
    · simp [generateAudio, hrun, hfb]
    · simpa [generateAudio, hrun, hfb] using hne
    · simp [generateAudio, hrun, hfb]

theorem c1_fallback_ladder_witness :
    (generateAudio
        ⟨true, fun _ _ => .error (), .ok (silentSeg 0), fun _ => .ok ⟨[], 0, 0, 0⟩,
         fun _ _ => .ok [1]⟩
        ⟨[]⟩ ⟨"echo", 11/10, 0, 7/10, 3/10, 4, "trap", 90⟩).1 = exportSilentMp3 30000 ∧
    (generateAudio
        ⟨true, fun _ _ => .error (), .ok (silentSeg 0), fun _ => .ok ⟨[], 0, 0, 0⟩,
         fun _ _ => .ok [1]⟩
        ⟨[]⟩ ⟨"echo", 11/10, 0, 7/10, 3/10, 4, "trap", 90⟩).1 ≠ [] ∧
    (generateAudio
        ⟨true, fun _ _ => .error (), .ok (silentSeg 0), fun _ => .ok ⟨[], 0, 0, 0⟩,
         fun _ _ => .ok [1]⟩
        ⟨[]⟩ ⟨"echo", 11/10, 0, 7/10, 3/10, 4, "trap", 90⟩).2 =
      [Stage.fullPipeline, Stage.speechOnly, Stage.silenceFallback] :=
  (c1_fallback_ladder
      ⟨true, fun _ _ => .error (), .ok (silentSeg 0), fun _ => .ok ⟨[], 0, 0, 0⟩,
       fun _ _ => .ok [1]⟩
      ⟨[]⟩ ⟨"echo", 11/10, 0, 7/10, 3/10, 4, "trap", 90⟩).2 (fun _ _ => rfl)

end Roastify


namespace Roastify

/-! ### Int16 conversion lemmas -/

theorem wrap16_eq_self {z : ℤ} (h1 : -32768 ≤ z) (h2 : z ≤ 32767) : wrap16 z = z := by
  unfold wrap16
  have h3 : (z + 32768) % 65536 = z + 32768 := Int.emod_eq_of_lt (by omega) (by omega)
  omega

theorem ratTrunc_le_int16_max {q : ℚ} (h : q < 32768) : ratTrunc q ≤ 32767 := by
  unfold ratTrunc
  split_ifs with hq
  · have : ⌊q⌋ < (32768 : ℤ) := Int.floor_lt.mpr (by exact_mod_cast h)
    omega
  · have : ⌈q⌉ ≤ (0 : ℤ) := Int.ceil_le.mpr (by exact_mod_cast le_of_lt (not_le.mp hq))
    omega

theorem int16_min_le_ratTrunc {q : ℚ} (h : -32769 < q) : -32768 ≤ ratTrunc q := by
  unfold ratTrunc
  split_ifs with hq
  · have : (0 : ℤ) ≤ ⌊q⌋ := Int.floor_nonneg.mpr hq
    omega
  · have : (-32769 : ℤ) < ⌈q⌉ := Int.lt_ceil.mpr (by exact_mod_cast h)
    omega

theorem npToInt16_no_wrap {q : ℚ} (h1 : -32769 < q) (h2 : q < 32768) :
    npToInt16 q = ratTrunc q ∧ inInt16 (ratTrunc q) := by
  have ha := int16_min_le_ratTrunc h1
  have hb := ratTrunc_le_int16_max h2
  exact ⟨wrap16_eq_self ha hb, ha, hb⟩

theorem clampQ_le {lo hi : ℚ} (q : ℚ) (h : lo ≤ hi) : clampQ lo hi q ≤ hi :=
  max_le h (min_le_right q hi)

theorem le_clampQ (lo hi q : ℚ) : lo ≤ clampQ lo hi q := le_max_left lo _

/-- C8 counterexample: on the time-stretch path the conversion back to
int16 has no clipping step, so a stretched float sample of exactly 1.0
scales to 32768, which is outside the int16 range and wraps to -32768.
The run below exhibits a full sync call whose output sample has
wrapped, so the claim that the conversion after time-stretching never
wraps a sample value is false. -/
theorem c8_counterexample :
    (syncToBpm (fun _ => .ok 180) (fun _ _ => .ok [1]) ⟨[], 22050, 2, 1⟩ 90).samples
        = [(-32768 : ℤ)] ∧
    ratTrunc ((1 : ℚ) * 32768) = 32768 ∧
    stretchToInt16 1 ≠ ratTrunc ((1 : ℚ) * 32768) := by
  have htr : ratTrunc ((1 : ℚ) * 32768) = 32768 := by
    unfold ratTrunc
    rw [if_pos (by norm_num)]
    norm_num
  have hst : stretchToInt16 1 = -32768 := by
    unfold stretchToInt16 npToInt16
    rw [htr]
    unfold wrap16
    norm_num
  refine ⟨?_, htr, by rw [hst, htr]; norm_num⟩
  have hcond : (1/10 : ℚ) < |(180 : ℚ) / ((90 : ℕ) : ℚ) - 1| := by norm_num
  simp only [syncToBpm]
  rw [if_neg (by norm_num : ¬(90 = 0)), if_pos hcond]
  simp [hst]

/-- C8 amended: the float-to-int16 conversions after effects processing
and after ducking keep every sample within the int16 range with no
wraparound, for every input sample; the conversion after
time-stretching does so only for stretched samples strictly between
-32769/32768 and 1 (at 1.0 and beyond, or at or below -32769/32768, it
wraps, see the counterexample). -/
theorem c8_no_wrap_amended (q r s : ℚ)
    (hs1 : -(32769/32768) < s) (hs2 : s < 1) :
    (effectsToInt16 q = ratTrunc (clampQ (-(19/20)) (19/20) q * 32768) ∧
       inInt16 (ratTrunc (clampQ (-(19/20)) (19/20) q * 32768))) ∧
    (duckToInt16 r = ratTrunc (clampQ (-32768) 32767 (r * 32768)) ∧
       inInt16 (ratTrunc (clampQ (-32768) 32767 (r * 32768)))) ∧
    (stretchToInt16 s = ratTrunc (s * 32768) ∧ inInt16 (ratTrunc (s * 32768))) := by
  refine ⟨?_, ?_, ?_⟩
  · have hle : clampQ (-(19/20)) (19/20) q ≤ 19/20 := clampQ_le q (by norm_num)
    have hge : -(19/20) ≤ clampQ (-(19/20)) (19/20) q := le_clampQ _ _ _
    have h1 : clampQ (-(19/20)) (19/20) q * 32768 < 32768 := by nlinarith
    have h2 : (-32769 : ℚ) < clampQ (-(19/20)) (19/20) q * 32768 := by nlinarith
    exact npToInt16_no_wrap h2 h1
  · have hle : clampQ (-32768) 32767 (r * 32768) ≤ 32767 := clampQ_le _ (by norm_num)
    have hge : (-32768 : ℚ) ≤ clampQ (-32768) 32767 (r * 32768) := le_clampQ _ _ _
    exact npToInt16_no_wrap (by linarith) (by linarith)
  · have h1 : s * 32768 < 32768 := by nlinarith
    have h2 : (-32769 : ℚ) < s * 32768 := by nlinarith
    exact npToInt16_no_wrap h2 h1

theorem c8_no_wrap_amended_witness :
    (-(32769/32768) : ℚ) < 1/2 ∧
    (effectsToInt16 2 = ratTrunc (clampQ (-(19/20)) (19/20) 2 * 32768) ∧
       inInt16 (ratTrunc (clampQ (-(19/20)) (19/20) 2 * 32768))) ∧
    (stretchToInt16 (1/2) = ratTrunc ((1/2 : ℚ) * 32768) ∧
       inInt16 (ratTrunc ((1/2 : ℚ) * 32768))) := by
  have h := c8_no_wrap_amended 2 50000 (1/2) (by norm_num) (by norm_num)
  exact ⟨by norm_num, h.1, h.2.2⟩

end Roastify

namespace Roastify

/-- C9: the two per-token rules of the lyric enhancer are mutually
exclusive with the emphasis rule taking precedence: a word containing
an emphasis keyword is upper-cased with no trailing comma appended,
whatever its suffix, and the comma rule applies only to words with no
emphasis keyword; in particular the word flowing, which contains flow
and ends in ing, is only upper-cased. -/
theorem c9_emphasis_precedence (w : Str) :
    (hasEmphasisKeyword w = true → enhanceWord w = toUpperStr w) ∧
    (hasEmphasisKeyword w = false → hasRhymeSuffix w = true → enhanceWord w = w ++ [',']) := by
  constructor
  · intro h
    simp [enhanceWord, h]
  · intro h1 h2
    simp [enhanceWord, h1, h2]

theorem c9_emphasis_precedence_witness :
    hasEmphasisKeyword "flowing".toList = true ∧
    hasRhymeSuffix "flowing".toList = true ∧
    enhanceWord "flowing".toList = "FLOWING".toList := by
  refine ⟨by decide, by decide, ?_⟩
  rw [(c9_emphasis_precedence "flowing".toList).1 (by decide)]
  decide

end Roastify

namespace Roastify

/-! ### Formatter infix lemmas -/

theorem mem_isInfix_joinWith (sep : Str) :
    ∀ (xs : List Str) (x : Str), x ∈ xs → x <:+: joinWith sep xs := by
  intro xs
  induction xs with
  | nil => intro x hx; cases hx
  | cons a t ih =>
    intro x hx
    cases t with
    | nil =>
      rw [List.mem_singleton] at hx
      subst hx
      simp only [joinWith]
      exact List.infix_rfl
    | cons b u =>
      rcases List.mem_cons.mp hx with rfl | hmem
      · refine ⟨[], sep ++ joinWith sep (b :: u), ?_⟩
        simp [joinWith]
      · obtain ⟨s2, t2, hst⟩ := ih x hmem
        refine ⟨a ++ sep ++ s2, t2, ?_⟩
        simp only [joinWith]
        rw [← hst]
        simp [List.append_assoc]

theorem replaceChar_infix_mono {a b : Str} (c : Char) (rep : Str) (h : a <:+: b) :
    replaceChar c rep a <:+: replaceChar c rep b := by
  obtain ⟨s, t, rfl⟩ := h
  exact ⟨replaceChar c rep s, replaceChar c rep t, by simp [replaceChar, List.flatMap_append]⟩

/-- C6: for every lyric text that contains a line stripping to the HOOK
marker and a non-bracketed line containing the word fire, the formatted
output contains the energetic pause token at the hook boundary and the
upper-cased FIRE; this instantiates the per-line rules of the
formatter, which maps HOOK and CHORUS markers to the energetic pause
token and other bracketed lines to a plain pause, upper-cases keyword
words and joins the processed lines with pause separators. -/
theorem c6_hook_fire_scenario (lyrics : Str)
    (h1 : ∃ l ∈ List.splitOn '\n' lyrics, pyStrip l = "[HOOK]".toList)
    (h2 : ∃ l ∈ List.splitOn '\n' lyrics,
        ¬((pyStrip l).head? = some '[') ∧ "fire".toList ∈ pyWords (pyStrip l)) :
    "... YO! ...".toList <:+: formatLyricsForTTS lyrics ∧
    "FIRE".toList <:+: formatLyricsForTTS lyrics := by
  obtain ⟨l1, hl1, hstrip⟩ := h1
  obtain ⟨l2, hl2, hhead, hfire⟩ := h2
  constructor
  · have hpl : processLine l1 = some "... YO! ...".toList := by
      simp only [processLine, hstrip]
      decide
    have hm : "... YO! ...".toList ∈ (List.splitOn '\n' lyrics).filterMap processLine :=
      List.mem_filterMap.mpr ⟨l1, hl1, hpl⟩
    simp only [formatLyricsForTTS]
    exact mem_isInfix_joinWith _ _ _ hm
  · have hsne : pyStrip l2 ≠ [] := by
      intro h0
      rw [h0] at hfire
      exact absurd hfire (by decide)
    have hpl : processLine l2 = some (enhanceRapLine (pyStrip l2)) := by
      simp only [processLine]
      rw [if_neg hsne, if_neg (fun hand => hhead hand.1)]
    have hup : enhanceWord "fire".toList = "FIRE".toList := by decide
    have hmemF : "FIRE".toList ∈ (pyWords (pyStrip l2)).map enhanceWord := by
      rw [← hup]
      exact List.mem_map_of_mem enhanceWord hfire
    have hinf1 : "FIRE".toList <:+: joinWith [' '] ((pyWords (pyStrip l2)).map enhanceWord) :=
      mem_isInfix_joinWith _ _ _ hmemF
    have e1 := replaceChar_infix_mono '!' "! YEAH!".toList hinf1
    rw [show replaceChar '!' "! YEAH!".toList "FIRE".toList = "FIRE".toList from by decide] at e1
    have e2 := replaceChar_infix_mono '?' "? UH!".toList e1
    rw [show replaceChar '?' "? UH!".toList "FIRE".toList = "FIRE".toList from by decide] at e2
    have hinfLine : "FIRE".toList <:+: enhanceRapLine (pyStrip l2) := by
      simpa [enhanceRapLine] using e2
    have hm : enhanceRapLine (pyStrip l2) ∈ (List.splitOn '\n' lyrics).filterMap processLine :=
      List.mem_filterMap.mpr ⟨l2, hl2, hpl⟩
    simp only [formatLyricsForTTS]
    exact hinfLine.trans (mem_isInfix_joinWith _ _ _ hm)

theorem c6_hook_fire_scenario_witness :
    "... YO! ...".toList <:+: formatLyricsForTTS "[HOOK]\nspit fire".toList ∧
    "FIRE".toList <:+: formatLyricsForTTS "[HOOK]\nspit fire".toList :=
  c6_hook_fire_scenario "[HOOK]\nspit fire".toList (by decide) (by decide)

end Roastify
